import Mathlib

/-
  Verification of the repository-URL resolution engine of saa-workflows.

  The definitions below are shallow embeddings of the Python sources:
    * src/scripts/get-repo-url.py    (URL normalizer, metadata/POM traversal)
    * src/scripts/bulk-repo-lookup.py (bulk orchestrator)
    * src/scripts/generate-mapping-workflow.py (downstream dedup step)

  Strings are modelled as Lean `String` / `List Char`; XML elements that the
  scripts look up with `find` are modelled as `Option (Option String)`
  (element present ↦ `some text?`, where `text?` is the element's text, which
  Python's ElementTree reports as `None` for an empty element).
-/

namespace SaaW

/-! ### String primitives mirroring the Python string operations used -/

/-- Substring test: `hasSub pat s` is `true` iff `pat` occurs contiguously in
`s`.  Mirrors Python's `pat in s` on strings. -/
def hasSub (pat : List Char) : List Char → Bool
  | [] => pat.isEmpty
  | c :: rest => pat.isPrefixOf (c :: rest) || hasSub pat rest

/-- Fuelled worker for `replaceAll`.  With `fuel ≥ s.length` (and a non-empty
pattern) this computes Python's `s.replace(pat, rep)`: scan left to right,
replace each non-overlapping occurrence, never rescanning the replacement
text.  The fuel drops by one per consumed character, so `s.length` fuel always
suffices. -/
def replaceAllFuel (pat rep : List Char) : Nat → List Char → List Char
  | _, [] => []
  | 0, s => s
  | fuel + 1, c :: rest =>
    if !pat.isEmpty && pat.isPrefixOf (c :: rest) then
      rep ++ replaceAllFuel pat rep fuel ((c :: rest).drop pat.length)
    else
      c :: replaceAllFuel pat rep fuel rest

/-- Python `s.replace(pat, rep)` for a non-empty pattern `pat`. -/
def replaceAll (pat rep s : List Char) : List Char :=
  replaceAllFuel pat rep s.length s

/-- Consume characters up to, but not including, the next newline (or the end
of the string).  Models the regex fragment `.*`, whose `.` does not match a
newline. -/
def dropLine : List Char → List Char
  | [] => []
  | c :: rest => if c = '\n' then c :: rest else dropLine rest

/-- Fuelled worker for `subDotGit`; `s.length` fuel always suffices. -/
def subDotGitFuel : Nat → List Char → List Char
  | _, [] => []
  | 0, s => s
  | fuel + 1, c :: rest =>
    if (String.toList ".git").isPrefixOf (c :: rest) then
      subDotGitFuel fuel (dropLine ((c :: rest).drop 4))
    else
      c :: subDotGitFuel fuel rest

/-- Python `re.sub(re.escape(".git") + r'.*', '', s)`: delete every match of
`\.git.*` (a literal `.git` followed by the greedy rest of the line). -/
def subDotGit (s : List Char) : List Char :=
  subDotGitFuel s.length s

/-- Python `s.rstrip('/')`: remove all trailing slashes. -/
def rstripSlash (s : List Char) : List Char :=
  (s.reverse.dropWhile (fun c => c == '/')).reverse

/-- The whitespace characters stripped by Python's `str.strip()` (the ASCII
ones; the inputs of interest contain no exotic Unicode whitespace). -/
def isPySpace (c : Char) : Bool :=
  c == ' ' || c == '\t' || c == '\n' || c == '\r' || c == '\x0b' || c == '\x0c'

/-- Python `s.strip()` on ASCII data. -/
def pyStrip (s : List Char) : List Char :=
  ((s.dropWhile isPySpace).reverse.dropWhile isPySpace).reverse

/-! ### The URL normalizer: `clean_scm_url` of src/scripts/get-repo-url.py -/

/-- The successive rewrites applied by `clean_scm_url` after its emptiness
guard, in source order (lines 37-53 of get-repo-url.py). -/
def cleanPipeline (s : List Char) : List Char :=
  let s1 := replaceAll (String.toList "scm:") [] s
  let s2 := replaceAll (String.toList "git://") (String.toList "https://") s1
  let s3 := replaceAll (String.toList "ssh://git@") (String.toList "https://") s2
  let s4 := replaceAll (String.toList "git@github.com:")
      (String.toList "https://github.com/") s3
  let s5 := replaceAll (String.toList "git@gitlab.com:")
      (String.toList "https://gitlab.com/") s4
  let s6 := replaceAll (String.toList "git@bitbucket.org:")
      (String.toList "https://bitbucket.org/") s5
  let s7 := replaceAll (String.toList "git:") [] s6
  rstripSlash (subDotGit s7)

/-- The function `clean_scm_url` of get-repo-url.py.  A `None` or empty input
yields `None` (the guard `if not url: return None`); otherwise the pipeline of
rewrites is applied and the resulting string — possibly empty — is returned. -/
def clean_scm_url : Option String → Option String
  | none => none
  | some u => if u = "" then none else some (String.mk (cleanPipeline u.toList))

/-! ### Version metadata and its selection policy (get-repo-url.py lines 73-99) -/

/-- Parsed `maven-metadata.xml`, as consumed by get-repo-url.py: the results of
`root.find('.//latest')`, `root.find('.//release')` and, for a present
`<versions>` element, the list of texts of its `<version>` children. -/
structure MetadataDoc where
  latest : Option (Option String)
  release : Option (Option String)
  versions : Option (List (Option String))
deriving DecidableEq

/-- Version selection exactly as coded in get-repo-url.py lines 74-92: take
the `<latest>` element's text if the element exists, else `<release>`'s, else
the last entry of the `<version>` list when `<versions>` exists and the list
is non-empty, else give up (`return None`). -/
def selectVersion (md : MetadataDoc) : Option (Option String) :=
  match md.latest with
  | some t => some t
  | none =>
    match md.release with
    | some t => some t
    | none =>
      match md.versions with
      | some vl =>
        match vl.getLast? with
        | some t => some t
        | none => none
      | none => none

/-- Modelled from the spec: "Version selection policy, in order: explicit
latest field; else explicit release field; else last entry of an explicit
version list; else NotFound" — stated as an `Option` priority chain, to be
compared with the code-derived `selectVersion`. -/
def selectVersionSpec (md : MetadataDoc) : Option (Option String) :=
  md.latest.or (md.release.or (md.versions.bind List.getLast?))

/-! ### POM documents and the chain traversal (get-repo-url.py lines 101-205) -/

/-- The `<scm>` block of a POM: texts of the three probed child elements. -/
structure ScmBlock where
  developerConnection : Option (Option String)
  url : Option (Option String)
  connection : Option (Option String)
deriving DecidableEq

/-- A POM's `<parent>` reference: texts of `groupId`, `artifactId`,
`version`. -/
structure ParentRef where
  groupId : Option (Option String)
  artifactId : Option (Option String)
  version : Option (Option String)
deriving DecidableEq

/-- A parsed POM as get-repo-url.py looks at it (after namespace stripping):
`scm` is `root.find('.//scm')`, `urlField` is `root.find('.//url')`,
`parentField` is the document's `<parent>` element, `artifactIdField` is
`root.find('artifactId')`.  Note that the source never actually computes the
parent element: line 151 reads a variable `parent` that is never assigned, so
`parentField` is carried here only to describe inputs — the embedded step
below faults before consulting it, exactly as the Python does. -/
structure Pom where
  scm : Option ScmBlock
  urlField : Option (Option String)
  parentField : Option ParentRef
  artifactIdField : Option (Option String)
deriving DecidableEq

/-- Outcome of one `fetch_url` + `ET.fromstring` round trip.  `missing` is a
404 or a caught transport error (`fetch_url` returns `None`); `parseError` is
an `ET.ParseError`; `raises` is a non-404 `HTTPError`, which `fetch_url`
re-raises and nothing catches. -/
inductive FetchResult (α : Type)
  | missing
  | parseError
  | raises
  | doc (d : α)
deriving DecidableEq

/-- Terminal behaviours of `get_repo_url`: return a URL string, return `None`
(unresolved), or escape with an uncaught exception.  `nameErrorFault` is the
`NameError` raised at line 151 (`if parent is not None:` with `parent` never
defined); `httpErrorFault` is a propagated non-404 `HTTPError`. -/
inductive ResolveOutcome
  | url (u : String)
  | unresolved
  | nameErrorFault
  | httpErrorFault
deriving DecidableEq

/-- Probe one SCM field as lines 131-138 do: the element must exist with
non-empty text, and `clean_scm_url` of that text must be non-empty. -/
def probeScmField (f : Option (Option String)) : Option String :=
  match f with
  | some (some t) =>
    if t = "" then none
    else
      let c := cleanPipeline t.toList
      if c.isEmpty then none else some (String.mk c)
  | _ => none

/-- Probe the `<scm>` block in the fixed field order
`developerConnection`, `url`, `connection` (line 131). -/
def scmProbe : Option ScmBlock → Option String
  | none => none
  | some b =>
    match probeScmField b.developerConnection with
    | some u => some u
    | none =>
      match probeScmField b.url with
      | some u => some u
      | none => probeScmField b.connection

/-- The fixed allow-list of line 145. -/
def allowHosts : List String :=
  ["github.com", "gitlab.com", "bitbucket.org", "sourceforge.net"]

/-- The project-URL fallback of lines 140-148: if a `<url>` element with
non-empty text exists, strip it, and return it verbatim when any allow-listed
host name occurs anywhere in the stripped string (a substring test, not a
host-component comparison; and no normalization is applied). -/
def urlFallback (f : Option (Option String)) : Option String :=
  match f with
  | some (some t) =>
    if t = "" then none
    else
      let u := pyStrip t.toList
      if allowHosts.any (fun h => hasSub h.toList u) then some (String.mk u)
      else none
  | _ => none

/-- Result of one iteration of the `while depth < max_depth` loop body:
either the whole function returns with an outcome, or the loop `break`s
(after which `get_repo_url` returns `None`). -/
inductive StepResult
  | ret (o : ResolveOutcome)
  | brk

/-- One loop-body execution of get-repo-url.py lines 114-203 on the fetched
POM.  A failed fetch or a parse error breaks the loop; a non-404 HTTP error
propagates; otherwise the SCM probe, then the URL fallback, may return a URL.
When both decline, control reaches line 151, which reads the undefined name
`parent` and therefore raises `NameError` — the parent-handling code of lines
152-199 (oss-parent stop, Apache synthesis, advance to parent) is
unreachable. -/
def pomStep : FetchResult Pom → StepResult
  | .missing => .brk
  | .parseError => .brk
  | .raises => .ret .httpErrorFault
  | .doc p =>
    match scmProbe p.scm with
    | some u => .ret (.url u)
    | none =>
      match urlFallback p.urlField with
      | some u => .ret (.url u)
      | none => .ret .nameErrorFault

/-- The network, as get-repo-url.py addresses it: version metadata per
`(group, artifact)` and a POM per `(group, artifact, versionText)`.  The
version key is the text interpolated into the POM URL (an element with no
text interpolates as the literal `None`, modelled by the `none` key). -/
structure MavenRepo where
  metadata : String → String → FetchResult MetadataDoc
  pom : String → String → Option String → FetchResult Pom

/-- The `while depth < max_depth` loop, instrumented: the result carries the
outcome, the final value of `depth`, and the number of POM fetches performed.
Because every loop-body execution returns or breaks (see `pomStep` — the
advance-to-parent branch is dead code behind the `NameError`), the loop runs
at most one iteration and `depth` is never incremented. -/
def get_repo_url_loop (repo : MavenRepo) (g a : String) (v : Option String)
    (maxDepth depth : Nat) : ResolveOutcome × Nat × Nat :=
  if depth < maxDepth then
    match pomStep (repo.pom g a v) with
    | .ret o => (o, depth, 1)
    | .brk => (.unresolved, depth, 1)
  else (.unresolved, depth, 0)

/-- The function `get_repo_url` of get-repo-url.py, instrumented with the
final depth and the POM fetch count.  Step 1 fetches and parses the version
metadata and selects a version; step 2 runs the traversal loop. -/
def get_repo_url_instr (repo : MavenRepo) (g a : String) (maxDepth : Nat := 10) :
    ResolveOutcome × Nat × Nat :=
  match repo.metadata g a with
  | .missing => (.unresolved, 0, 0)
  | .parseError => (.unresolved, 0, 0)
  | .raises => (.httpErrorFault, 0, 0)
  | .doc md =>
    match selectVersion md with
    | none => (.unresolved, 0, 0)
    | some v => get_repo_url_loop repo g a v maxDepth 0

/-- The observable outcome of `get_repo_url`. -/
def get_repo_url (repo : MavenRepo) (g a : String) (maxDepth : Nat := 10) :
    ResolveOutcome :=
  (get_repo_url_instr repo g a maxDepth).1

/-! ### The bulk orchestrator (bulk-repo-lookup.py) -/

/-- Outcome of the `subprocess.run` call in `resolve_artifact`: a completed
process with return code, captured stdout/stderr and measured elapsed
milliseconds; a `TimeoutExpired`; or some other exception with its message. -/
inductive SubprocessOutcome
  | completed (returncode : Int) (stdout stderr : String) (elapsedMs : Nat)
  | timedOut
  | raised (msg : String)

/-- The result record built by `resolve_artifact` (one per input line). -/
structure ResolutionResult where
  artifact : String
  group_id : String
  artifact_id : String
  resolved : Bool
  repository_url : String
  error : Option String
  response_time_ms : Nat
deriving DecidableEq

/-- The record returned for a malformed coordinate (lines 22-31). -/
def formatErrorResult (artifact : String) : ResolutionResult :=
  ⟨artifact, "", "", false, "", some "Invalid artifact format", 0⟩

/-- Split on the colon character, keeping empty fields: Python's
`s.split(':')`. -/
def splitColonChars : List Char → List (List Char)
  | [] => [[]]
  | c :: rest =>
    if c = ':' then [] :: splitColonChars rest
    else
      match splitColonChars rest with
      | [] => [[c]]
      | h :: t => (c :: h) :: t

/-- Python `s.split(':')` on strings. -/
def pySplitColon (s : String) : List String :=
  (splitColonChars s.toList).map String.mk

/-- The function `resolve_artifact` of bulk-repo-lookup.py, with the
subprocess modelled by an oracle `run`.  The format guard is exactly
`len(artifact.split(':')) != 2`; note it does not require the two parts to be
non-empty. -/
def resolve_artifact (run : String → SubprocessOutcome) (artifact : String) :
    ResolutionResult :=
  let parts := pySplitColon artifact
  if parts.length ≠ 2 then formatErrorResult artifact
  else
    let gid := parts.headD ""
    let aid := (parts.drop 1).headD ""
    match run artifact with
    | .completed rc out err ms =>
      if rc = 0 then
        ⟨artifact, gid, aid, true, String.mk (pyStrip out.toList), none, ms⟩
      else
        let emsg := if err = "" then "Repository URL not found"
          else String.mk (pyStrip err.toList)
        ⟨artifact, gid, aid, false, "", some emsg, ms⟩
    | .timedOut =>
      ⟨artifact, gid, aid, false, "", some "Resolution timeout (30s)", 30000⟩
    | .raised m => ⟨artifact, gid, aid, false, "", some m, 0⟩

/-- Helper for `lastIdx`: the greatest position (counting from `i`) at which
`a` occurs in the list, if any. -/
def lastIdxAux (a : String) : List String → Nat → Option Nat
  | [], _ => none
  | x :: rest, i =>
    match lastIdxAux a rest (i + 1) with
    | some j => some j
    | none => if x = a then some i else none

/-- The sort key of line 122-123: `artifact_order = {a: i for i, a in
enumerate(artifacts)}` maps each artifact string to its LAST index (a dict
comprehension overwrites earlier bindings), and `.get(..., float('inf'))`
supplies an out-of-range default, modelled by `l.length`. -/
def lastIdx (l : List String) (a : String) : Nat :=
  (lastIdxAux a l 0).getD l.length

/-- Sort key applied to a result record. -/
def sortKey (artifacts : List String) (r : ResolutionResult) : Nat :=
  lastIdx artifacts r.artifact

/-- The function `resolve_parallel` of bulk-repo-lookup.py.  The
`as_completed` collection order is modelled by `completion`: the i-th future
to finish is the one submitted for `artifacts[completion[i]]` (so a run of
the real pool corresponds to a `completion` that is a permutation of
`range n`).  The final `results.sort(key=...)` is Python's stable sort,
modelled by insertion sort on the key. -/
def resolve_parallel (run : String → SubprocessOutcome) (artifacts : List String)
    (completion : List Nat) : List ResolutionResult :=
  let collected := completion.map (fun i => resolve_artifact run (artifacts.getD i ""))
  List.insertionSort (fun x y => sortKey artifacts x ≤ sortKey artifacts y) collected

/-! ### Downstream dedup (generate-mapping-workflow.py lines 44-65) -/

/-- The loop of `get_unique_repositories`, with the `seen_urls` set modelled
as the list of URLs added so far.  `r` extracts
`artifact.get("repository_url", "")`: a missing key reads as `""`. -/
def guruLoop {α : Type} (r : α → String) : List α → List String → List α × List α
  | [], _ => ([], [])
  | a :: rest, seen =>
    if r a = "" then guruLoop r rest seen
    else if r a ∈ seen then
      let p := guruLoop r rest seen
      (p.1, a :: p.2)
    else
      let p := guruLoop r rest (r a :: seen)
      (a :: p.1, p.2)

/-- The function `get_unique_repositories` of generate-mapping-workflow.py. -/
def get_unique_repositories {α : Type} (r : α → String) (l : List α) :
    List α × List α :=
  guruLoop r l []

/-! ### A fixed-point region of the normalizer, and concrete test fixtures -/

/-- All the literal tokens that some rewrite of `cleanPipeline` looks for. -/
def cleanTokens : List String :=
  ["scm:", "git://", "ssh://git@", "git@github.com:", "git@gitlab.com:",
    "git@bitbucket.org:", "git:", ".git"]

/-- A string is clean when it is non-empty, contains none of the rewritten
tokens, and does not end in a slash.  On clean strings every stage of
`cleanPipeline` is the identity. -/
def isCleanB (s : List Char) : Bool :=
  !s.isEmpty && (cleanTokens.all fun p => !hasSub p.toList s)
    && !(s.getLast? == some '/')

/-- Lifted cleanliness test on the normalizer's `Option String` values: an
absent value counts as clean. -/
def optIsClean : Option String → Prop
  | none => True
  | some s => isCleanB s.toList = true

instance : DecidablePred optIsClean := fun x =>
  match x with
  | none => Decidable.isTrue trivial
  | some s => inferInstanceAs (Decidable (isCleanB s.toList = true))

/-- Metadata document for the C1 scenario. -/
def mdC1 : MetadataDoc := ⟨some (some "1"), none, none⟩

/-- POM for the C1 scenario: no SCM block, no project URL, and a fully
populated ordinary (non-umbrella) parent reference. -/
def pomC1 : Pom :=
  ⟨none, none, some ⟨some (some "pg"), some (some "pa"), some (some "2")⟩,
    some (some "a")⟩

/-- Concrete network for the C1 scenario. -/
def repoC1 : MavenRepo where
  metadata := fun g a => if g = "g" ∧ a = "a" then .doc mdC1 else .missing
  pom := fun g a v =>
    if g = "g" ∧ a = "a" ∧ v = some "1" then .doc pomC1 else .missing

/-- POM for the C3 scenario: no SCM, no URL, parent is the Sonatype
oss-parent umbrella coordinate. -/
def pomC3 : Pom :=
  ⟨none, none,
    some ⟨some (some "org.sonatype.oss"), some (some "oss-parent"),
      some (some "9")⟩,
    some (some "a3")⟩

/-- Concrete network for the C3 scenario.  The umbrella's own ancestor chain
even carries SCM info (irrelevant: the code never gets there). -/
def repoC3 : MavenRepo where
  metadata := fun g a => if g = "g3" ∧ a = "a3" then .doc mdC1 else .missing
  pom := fun g a v =>
    if g = "g3" ∧ a = "a3" ∧ v = some "1" then .doc pomC3
    else if g = "org.sonatype.oss" ∧ a = "oss-parent" ∧ v = some "9" then
      .doc ⟨some ⟨some (some "https://github.com/sonatype/oss-parents"), none,
        none⟩, none, none, some (some "oss-parent")⟩
    else .missing

/-- POM for the C4 scenario: no SCM, no URL, parent is the Apache root
umbrella coordinate, own artifactId `foo`. -/
def pomC4 : Pom :=
  ⟨none, none,
    some ⟨some (some "org.apache"), some (some "apache"), some (some "23")⟩,
    some (some "foo")⟩

/-- Concrete network for the C4 scenario. -/
def repoC4 : MavenRepo where
  metadata := fun g a => if g = "g4" ∧ a = "foo" then .doc mdC1 else .missing
  pom := fun g a v =>
    if g = "g4" ∧ a = "foo" ∧ v = some "1" then .doc pomC4 else .missing

/-- Metadata for the C7 scenarios. -/
def mdC7 : MetadataDoc := ⟨none, some (some "3"), none⟩

/-- POM for the C7 scenario: no SCM block; a project URL on an allow-listed
host, with surrounding whitespace and a trailing slash. -/
def pomC7 : Pom := ⟨none, some (some "  https://github.com/org/repo/  "), none, none⟩

/-- Concrete network for the C7 scenario. -/
def repoC7 : MavenRepo where
  metadata := fun g a => if g = "g7" ∧ a = "a7" then .doc mdC7 else .missing
  pom := fun g a v =>
    if g = "g7" ∧ a = "a7" ∧ v = some "3" then .doc pomC7 else .missing

/-- POM for the C7 host-check scenario: the URL's host is
`notgithub.community`, which is not an allow-listed host, but the string
`github.com` occurs inside it as a substring. -/
def pomC7b : Pom := ⟨none, some (some "https://notgithub.community/x"), none, none⟩

/-- Concrete network for the C7 host-check scenario (its metadata exercises
the version-list fallback). -/
def repoC7b : MavenRepo where
  metadata := fun g a =>
    if g = "g8" ∧ a = "a8" then .doc ⟨none, none, some [some "1", some "2"]⟩
    else .missing
  pom := fun g a v =>
    if g = "g8" ∧ a = "a8" ∧ v = some "2" then .doc pomC7b else .missing

/-- Subprocess oracle for the C2 theorems: every resolver invocation fails
with an empty stderr. -/
def runC2 : String → SubprocessOutcome := fun _ => .completed 1 "" "" 0

/-- A second, distinguishable subprocess oracle for the C2 witness. -/
def runC2w : String → SubprocessOutcome :=
  fun a => .completed 0 ("https://example.com/" ++ a) "" 7

/-- Subprocess oracle for the C5 theorems: the resolver succeeds. -/
def runC5 : String → SubprocessOutcome :=
  fun _ => .completed 0 "https://example.com/x\n" "" 5

/-- A second, distinguishable subprocess oracle for the C5 witness. -/
def runC5w : String → SubprocessOutcome := fun _ => .timedOut

/-! ### Fixed-point lemmas for the normalizer pipeline -/

theorem replaceAllFuel_eq_self (pat rep : List Char) :
    ∀ (s : List Char) (fuel : Nat), hasSub pat s = false → s.length ≤ fuel →
      replaceAllFuel pat rep fuel s = s
  | [], fuel, _, _ => by cases fuel <;> rfl
  | c :: rest, 0, _, hlen => by simp at hlen
  | c :: rest, fuel + 1, hsub, hlen => by
    have hsub' := hsub
    simp only [hasSub, Bool.or_eq_false_iff] at hsub'
    have hcond : (!pat.isEmpty && pat.isPrefixOf (c :: rest)) = false := by
      rw [hsub'.1, Bool.and_false]
    simp only [replaceAllFuel, hcond, Bool.false_eq_true, if_false]
    have hlen' : rest.length ≤ fuel := Nat.le_of_succ_le_succ (by simpa using hlen)
    rw [replaceAllFuel_eq_self pat rep rest fuel hsub'.2 hlen']

theorem replaceAll_eq_self (pat rep s : List Char) (h : hasSub pat s = false) :
    replaceAll pat rep s = s :=
  replaceAllFuel_eq_self pat rep s s.length h (Nat.le_refl _)

theorem subDotGitFuel_eq_self :
    ∀ (s : List Char) (fuel : Nat), hasSub (String.toList ".git") s = false →
      s.length ≤ fuel → subDotGitFuel fuel s = s
  | [], fuel, _, _ => by cases fuel <;> rfl
  | c :: rest, 0, _, hlen => by simp at hlen
  | c :: rest, fuel + 1, hsub, hlen => by
    have hsub' := hsub
    simp only [hasSub, Bool.or_eq_false_iff] at hsub'
    simp only [subDotGitFuel, hsub'.1, Bool.false_eq_true, if_false]
    have hlen' : rest.length ≤ fuel := Nat.le_of_succ_le_succ (by simpa using hlen)
    rw [subDotGitFuel_eq_self rest fuel hsub'.2 hlen']

theorem subDotGit_eq_self (s : List Char)
    (h : hasSub (String.toList ".git") s = false) : subDotGit s = s :=
  subDotGitFuel_eq_self s s.length h (Nat.le_refl _)

theorem rstripSlash_eq_self (s : List Char) (h : (s.getLast? == some '/') = false) :
    rstripSlash s = s := by
  unfold rstripSlash
  cases hrev : s.reverse with
  | nil =>
    have hs : s = [] := by simpa using congrArg List.reverse hrev
    simp [hs]
  | cons c t =>
    have hlast : s.getLast? = some c := by
      have hh := congrArg List.head? hrev
      simpa using hh
    have hc : (c == '/') = false := by
      rw [hlast] at h
      simpa using h
    rw [List.dropWhile_cons, hc]
    simp only [Bool.false_eq_true, if_false]
    rw [← hrev, List.reverse_reverse]

theorem cleanPipeline_eq_self (s : List Char) (h : isCleanB s = true) :
    cleanPipeline s = s := by
  simp only [isCleanB, cleanTokens, List.all_cons, List.all_nil, Bool.and_eq_true,
    Bool.not_eq_true', Bool.and_true] at h
  obtain ⟨⟨hne, h1, h2, h3, h4, h5, h6, h7, h8⟩, hlast⟩ := h
  show rstripSlash (subDotGit (replaceAll (String.toList "git:") []
    (replaceAll (String.toList "git@bitbucket.org:")
      (String.toList "https://bitbucket.org/")
      (replaceAll (String.toList "git@gitlab.com:")
        (String.toList "https://gitlab.com/")
        (replaceAll (String.toList "git@github.com:")
          (String.toList "https://github.com/")
          (replaceAll (String.toList "ssh://git@") (String.toList "https://")
            (replaceAll (String.toList "git://") (String.toList "https://")
              (replaceAll (String.toList "scm:") [] s)))))))) = s
  rw [replaceAll_eq_self _ _ _ h1, replaceAll_eq_self _ _ _ h2,
    replaceAll_eq_self _ _ _ h3, replaceAll_eq_self _ _ _ h4,
    replaceAll_eq_self _ _ _ h5, replaceAll_eq_self _ _ _ h6,
    replaceAll_eq_self _ _ _ h7, subDotGit_eq_self _ h8,
    rstripSlash_eq_self _ hlast]

theorem string_mk_toList (s : String) : String.mk s.toList = s := rfl

/-- Sanity check of the normalizer against the spec's worked example. -/
theorem clean_scm_url_spec_example :
    clean_scm_url (some "scm:git:git@github.com:org/repo.git") =
      some "https://github.com/org/repo" := by decide

/-- C6, counterexample: `normalize` is not idempotent.  The input `"/"`
normalizes to the empty string (only the trailing slash is stripped, and the
empty result is returned as an empty string, which is truthy-checked only on
entry), while normalizing that empty string yields absent. -/
theorem c6_counterexample :
    ¬ (clean_scm_url (clean_scm_url (some "/")) = clean_scm_url (some "/")) := by
  decide

/-- C6, amended: an empty or absent input normalizes to absent, and
`normalize` is idempotent on every input whose normalized form is absent or a
clean string — non-empty, containing none of the rewritten tokens (`scm:`,
`git://`, `ssh://git@`, the three `git@host:` shorthands, `git:`, `.git`) and
not ending in a slash; in particular on every input that normalizes to an
ordinary https URL.  It is not idempotent in general (see the
counterexample). -/
theorem c6_normalize_idempotent_amended :
    (∀ x : Option String, optIsClean (clean_scm_url x) →
      clean_scm_url (clean_scm_url x) = clean_scm_url x) ∧
    clean_scm_url none = none ∧ clean_scm_url (some "") = none := by
  refine ⟨?_, rfl, by decide⟩
  intro x h
  cases hx : clean_scm_url x with
  | none => rfl
  | some s =>
    rw [hx] at h
    have hcl : isCleanB s.toList = true := h
    have hne : s ≠ "" := by
      intro hs
      rw [hs] at hcl
      simp [isCleanB] at hcl
    show (if s = "" then none else some (String.mk (cleanPipeline s.toList)))
      = some s
    rw [if_neg hne, cleanPipeline_eq_self s.toList hcl, string_mk_toList]

/-- Witness for the amended C6 theorem at the spec's worked example. -/
theorem c6_amended_witness :
    clean_scm_url (clean_scm_url (some "scm:git:git@github.com:org/repo.git")) =
      clean_scm_url (some "scm:git:git@github.com:org/repo.git") :=
  c6_normalize_idempotent_amended.1 (some "scm:git:git@github.com:org/repo.git")
    (by decide)

/-- C8: `selectVersion`, as coded in get-repo-url.py lines 74-92, implements
exactly the spec's priority order — the explicit `latest` element if present,
else the explicit `release` element, else the last entry of an explicit
version list, else no version (which `get_repo_url` turns into an unresolved
failure). -/
theorem c8_version_selection_policy :
    ∀ md : MetadataDoc, selectVersion md = selectVersionSpec md := by
  intro md
  obtain ⟨l, r, v⟩ := md
  cases l with
  | some t => rfl
  | none =>
    cases r with
    | some t => rfl
    | none =>
      cases v with
      | none => rfl
      | some vl =>
        show (match vl.getLast? with
          | some t => some t
          | none => none) = Option.or none (Option.or none (vl.getLast?))
        cases vl.getLast? <;> rfl

/-- C9: on every network behaviour and every coordinate, the instrumented
traversal of get-repo-url.py performs at most `maxDepth = 10` POM fetches and
finishes with `depth ≤ 10` (`0 ≤ depth` holds because depth is a natural
number).  The embedded function is total, so termination is by construction;
in fact the loop body always returns or breaks in its first iteration (the
advance-to-parent branch sits behind the undefined-variable fault), so at
most one POM is ever fetched. -/
theorem c9_depth_and_fetch_bound :
    ∀ (repo : MavenRepo) (g a : String),
      (get_repo_url_instr repo g a).2.1 ≤ 10 ∧
      (get_repo_url_instr repo g a).2.2 ≤ 10 := by
  intro repo g a
  have h10 : (0 : Nat) < 10 := by omega
  cases hmeta : repo.metadata g a with
  | missing => simp [get_repo_url_instr, hmeta]
  | parseError => simp [get_repo_url_instr, hmeta]
  | raises => simp [get_repo_url_instr, hmeta]
  | doc md =>
    cases hsel : selectVersion md with
    | none => simp [get_repo_url_instr, hmeta, hsel]
    | some v =>
      simp only [get_repo_url_instr, hmeta, hsel]
      simp only [get_repo_url_loop, h10, if_true]
      cases pomStep (repo.pom g a v) <;> simp

/-- C1: the code contradicts the claim.  For the C1 scenario — manifest with
no SCM info, no project URL, and a fully populated non-umbrella parent — the
claim says the traversal advances to the parent and that `resolve` can only
return a URL or fail as unresolved; the code instead raises an uncaught
`NameError` at line 151 (`if parent is not None:` reads a variable `parent`
that is never assigned), so it terminates with a fault that is neither. -/
theorem c1_parent_advance_is_dead_code :
    get_repo_url repoC1 "g" "a" = .nameErrorFault ∧
    ResolveOutcome.nameErrorFault ≠ .unresolved := by decide

/-- C3: the code contradicts the claim.  In the C3 scenario the current
manifest's parent is the Sonatype oss-parent umbrella coordinate and the
claim (and the code's own comments and verbose messages at lines 156-162)
says the traversal stops and returns unresolved; instead the undefined-name
fault at line 151 fires before the umbrella check can run. -/
theorem c3_oss_parent_stop_is_dead_code :
    get_repo_url repoC3 "g3" "a3" = .nameErrorFault := by decide

/-- C4: the code contradicts the claim.  In the C4 scenario the parent is the
Apache root umbrella coordinate and the manifest's own artifact name is
`foo`; the claim (and the synthesis code at lines 164-183) says `resolve`
returns `https://github.com/apache/foo`, but the undefined-name fault at line
151 fires before the Apache check can run. -/
theorem c4_apache_synthesis_is_dead_code :
    get_repo_url repoC4 "g4" "foo" = .nameErrorFault ∧
    ResolveOutcome.nameErrorFault ≠ .url "https://github.com/apache/foo" := by
  decide

/-- C7, counterexample: the claim fails twice over on the code.  First, for a
manifest whose project URL is `https://github.com/org/repo/` (inside
whitespace), `resolve` returns the stripped raw string — with its trailing
slash — whereas normalizing that URL removes the slash, so the returned value
does not equal `normalize(projectUrl)`.  Second, a URL on host
`notgithub.community` — not an allow-listed host — is accepted, because the
code tests `host in url` (substring anywhere), not the URL's host
component. -/
theorem c7_counterexample :
    (get_repo_url repoC7 "g7" "a7" = .url "https://github.com/org/repo/" ∧
      clean_scm_url (some "https://github.com/org/repo/") =
        some "https://github.com/org/repo") ∧
    get_repo_url repoC7b "g8" "a8" = .url "https://notgithub.community/x" := by
  decide

/-- C7, amended: for every manifest with no usable SCM field and a non-empty
project URL text, if any allow-listed host name occurs as a substring of the
whitespace-stripped URL, `resolve` returns that stripped URL verbatim — not
normalized, and with a substring test rather than a host-component
comparison. -/
theorem c7_url_fallback_amended :
    ∀ (repo : MavenRepo) (g a : String) (md : MetadataDoc) (v : Option String)
      (p : Pom) (t : String),
      repo.metadata g a = .doc md →
      selectVersion md = some v →
      repo.pom g a v = .doc p →
      scmProbe p.scm = none →
      p.urlField = some (some t) →
      t ≠ "" →
      allowHosts.any (fun h => hasSub h.toList (pyStrip t.toList)) = true →
      get_repo_url repo g a = .url (String.mk (pyStrip t.toList)) := by
  intro repo g a md v p t hmeta hsel hpom hscm hurl ht hany
  have h10 : (0 : Nat) < 10 := by omega
  simp only [get_repo_url, get_repo_url_instr, hmeta, hsel]
  simp only [get_repo_url_loop, h10, if_true, hpom]
  simp only [pomStep, hscm]
  have hfall : urlFallback p.urlField = some (String.mk (pyStrip t.toList)) := by
    simp only [urlFallback, hurl]
    rw [if_neg ht]
    simp only [hany, if_true]
  simp only [hfall]

/-- Witness for the amended C7 theorem at the C7 scenario. -/
theorem c7_amended_witness :
    get_repo_url repoC7 "g7" "a7" =
      .url (String.mk (pyStrip (String.toList "  https://github.com/org/repo/  "))) :=
  c7_url_fallback_amended repoC7 "g7" "a7" mdC7 (some "3") pomC7
    "  https://github.com/org/repo/  " (by decide) (by decide) (by decide)
    (by decide) (by decide) (by decide) (by decide)

/-- C5, counterexample: the coordinate `"g:"` splits on the delimiter into
two parts of which the second is empty, so by the claim it should be recorded
as a format error with no network work; but `resolve_artifact` only checks
`len(parts) != 2`, so `"g:"` is dispatched to the resolver subprocess and —
with a succeeding subprocess — produces a resolved record, not the
format-error record. -/
theorem c5_counterexample :
    resolve_artifact runC5 "g:" ≠ formatErrorResult "g:" ∧
    (resolve_artifact runC5 "g:").resolved = true ∧
    resolve_artifact runC5 "g:" ≠ resolve_artifact runC5w "g:" := by decide

/-- C5, amended: a coordinate string that does not split into exactly two
parts on the delimiter (zero or two-plus colons) is recorded immediately as
the format-error result, independently of anything the resolver subprocess
would do (no network work is dispatched: the result is oracle-independent).
A string with exactly one colon is dispatched even when one part is empty,
such as `"g:"`. -/
theorem c5_format_guard_amended :
    ∀ (a : String) (run₁ run₂ : String → SubprocessOutcome),
      (pySplitColon a).length ≠ 2 →
      resolve_artifact run₁ a = formatErrorResult a ∧
      resolve_artifact run₁ a = resolve_artifact run₂ a := by
  intro a r1 r2 h
  have e : ∀ run : String → SubprocessOutcome,
      resolve_artifact run a = formatErrorResult a := by
    intro run
    simp only [resolve_artifact]
    rw [if_pos h]
  exact ⟨e r1, (e r1).trans (e r2).symm⟩

/-- Witness for the amended C5 theorem at a three-part coordinate. -/
theorem c5_amended_witness :
    resolve_artifact runC5 "a:b:c" = formatErrorResult "a:b:c" ∧
    resolve_artifact runC5 "a:b:c" = resolve_artifact runC5w "a:b:c" :=
  c5_format_guard_amended "a:b:c" runC5 runC5w (by decide)

/-! ### Order lemmas for the bulk orchestrator -/

theorem resolve_artifact_artifact (run : String → SubprocessOutcome)
    (a : String) : (resolve_artifact run a).artifact = a := by
  simp only [resolve_artifact]
  split
  · rfl
  · cases run a with
    | completed rc out err ms =>
      dsimp only
      split <;> rfl
    | timedOut => rfl
    | raised m => rfl

theorem lastIdxAux_eq_none_of_not_mem (a : String) :
    ∀ (l : List String) (k : Nat), a ∉ l → lastIdxAux a l k = none
  | [], _, _ => rfl
  | x :: rest, k, h => by
    have hx : x ≠ a := fun hxa => h (hxa ▸ List.mem_cons_self x rest)
    have hrest : a ∉ rest := fun hm => h (List.mem_cons_of_mem x hm)
    simp only [lastIdxAux, lastIdxAux_eq_none_of_not_mem a rest (k + 1) hrest]
    rw [if_neg hx]

theorem lastIdxAux_nodup_get (l : List String) (hnd : l.Nodup) :
    ∀ (i : Nat) (h : i < l.length) (k : Nat),
      lastIdxAux (l.get ⟨i, h⟩) l k = some (k + i) := by
  induction l with
  | nil => intro i h k; simp at h
  | cons x rest ih =>
    intro i h k
    have hx : x ∉ rest := (List.nodup_cons.mp hnd).1
    have hrest : rest.Nodup := (List.nodup_cons.mp hnd).2
    cases i with
    | zero =>
      show lastIdxAux x (x :: rest) k = some k
      simp [lastIdxAux, lastIdxAux_eq_none_of_not_mem x rest (k + 1) hx]
    | succ j =>
      have hj : j < rest.length := Nat.lt_of_succ_lt_succ h
      show lastIdxAux (rest.get ⟨j, hj⟩) (x :: rest) k = some (k + (j + 1))
      simp only [lastIdxAux, ih hrest j hj (k + 1)]
      congr 1
      omega

theorem lastIdx_nodup_get (l : List String) (hnd : l.Nodup) (i : Nat)
    (h : i < l.length) : lastIdx l (l.get ⟨i, h⟩) = i := by
  unfold lastIdx
  rw [lastIdxAux_nodup_get l hnd i h 0]
  simp

theorem range_map_getD (d : String) :
    ∀ l : List String, (List.range l.length).map (fun i => l.getD i d) = l := by
  intro l
  induction l with
  | nil => rfl
  | cons x rest ih =>
    show (List.range (rest.length + 1)).map (fun i => (x :: rest).getD i d)
      = x :: rest
    rw [List.range_succ_eq_map, List.map_cons, List.map_map]
    refine congrArg (x :: ·) ?_
    have hcomp : ((fun i => (x :: rest).getD i d) ∘ Nat.succ)
        = fun i => rest.getD i d := by
      funext i
      simp [List.getD]
    rw [hcomp, ih]

/-- Uniqueness of sorted arrangements with pairwise distinct keys: two
permutations of each other that are both sorted by a key on which the first
list is duplicate-free must be equal. -/
theorem eq_of_perm_of_sorted_nodup_keys {α : Type} (key : α → Nat) :
    ∀ (l₁ l₂ : List α), l₁.Perm l₂ → (l₁.map key).Nodup →
      l₁.Sorted (fun x y => key x ≤ key y) →
      l₂.Sorted (fun x y => key x ≤ key y) → l₁ = l₂ := by
  intro l₁
  induction l₁ with
  | nil => intro l₂ hp _ _ _; exact (hp.symm.eq_nil).symm ▸ rfl
  | cons a t₁ ih =>
    intro l₂ hp hnd hs₁ hs₂
    cases l₂ with
    | nil => exact absurd hp.eq_nil (by simp)
    | cons b t₂ =>
      have hab : a = b := by
        have ha : a ∈ b :: t₂ := hp.subset (List.mem_cons_self a t₁)
        rcases List.mem_cons.mp ha with h | ha₂
        · exact h
        · have hb : b ∈ a :: t₁ := hp.symm.subset (List.mem_cons_self b t₂)
          rcases List.mem_cons.mp hb with h | hb₂
          · exact h.symm
          · have h₁ : key a ≤ key b := List.rel_of_sorted_cons hs₁ b hb₂
            have h₂ : key b ≤ key a := List.rel_of_sorted_cons hs₂ a ha₂
            have hk : key a = key b := Nat.le_antisymm h₁ h₂
            have hmem : key a ∈ t₁.map key := by
              rw [hk]
              exact List.mem_map_of_mem key hb₂
            exact absurd hmem (List.nodup_cons.mp (by simpa using hnd)).1
      subst hab
      have ht : t₁ = t₂ :=
        ih t₂ hp.cons_inv (List.nodup_cons.mp (by simpa using hnd)).2
          ((List.sorted_cons.mp hs₁).2) ((List.sorted_cons.mp hs₂).2)
      rw [ht]

/-- C2, counterexample: with the duplicate-containing input
`["g:a", "g:b", "g:a"]` and the completion order `[0, 1, 2]` (a legitimate
schedule: a permutation of `range 3`), the sort key maps every result for
`"g:a"` to the LAST index 2 (the order dict is built by a last-wins
comprehension), so the sorted output starts with the `"g:b"` result — the
result at index 0 is not the one produced for the coordinate at index 0,
refuting index alignment (which would force the mapped coordinate list to
equal the input, since every result record carries its own coordinate). -/
theorem c2_counterexample :
    ([0, 1, 2] : List Nat).Perm (List.range 3) ∧
    ¬ ((resolve_parallel runC2 ["g:a", "g:b", "g:a"] [0, 1, 2]).map
        (fun r => r.artifact) = ["g:a", "g:b", "g:a"]) := by decide

/-- C2, amended: `resolve_parallel` always returns as many results as there
are input coordinates, for every completion order that is a permutation of
the input indices; and when the input contains no duplicate coordinate
strings, the output is exactly the input-order list of per-coordinate
results, independent of completion order.  (With duplicates the length is
still preserved but results are reordered by last-occurrence index, so index
alignment can fail — see the counterexample.) -/
theorem c2_resolve_parallel_order_amended :
    ∀ (run : String → SubprocessOutcome) (artifacts : List String)
      (completion : List Nat),
      completion.Perm (List.range artifacts.length) →
      (resolve_parallel run artifacts completion).length = artifacts.length ∧
      (artifacts.Nodup →
        resolve_parallel run artifacts completion =
          artifacts.map (resolve_artifact run)) := by
  intro run artifacts completion hperm
  haveI hTot : IsTotal ResolutionResult
      (fun x y => sortKey artifacts x ≤ sortKey artifacts y) :=
    ⟨fun x y => Nat.le_total _ _⟩
  haveI hTrans : IsTrans ResolutionResult
      (fun x y => sortKey artifacts x ≤ sortKey artifacts y) :=
    ⟨fun x y z hxy hyz => Nat.le_trans hxy hyz⟩
  constructor
  · show (List.insertionSort _
      (completion.map (fun i => resolve_artifact run (artifacts.getD i "")))).length
      = artifacts.length
    rw [(List.perm_insertionSort _ _).length_eq, List.length_map,
      hperm.length_eq, List.length_range]
  · intro hnd
    have hA : (List.range artifacts.length).map
        (fun i => resolve_artifact run (artifacts.getD i ""))
        = artifacts.map (resolve_artifact run) := by
      have h2 : (List.range artifacts.length).map
          (fun i => resolve_artifact run (artifacts.getD i ""))
          = ((List.range artifacts.length).map (fun i => artifacts.getD i "")).map
            (resolve_artifact run) :=
        (List.map_map (resolve_artifact run) (fun i => artifacts.getD i "")
          (List.range artifacts.length)).symm
      rw [h2, range_map_getD]
    have hpermLA :
        (completion.map (fun i => resolve_artifact run (artifacts.getD i ""))).Perm
          (artifacts.map (resolve_artifact run)) := by
      have hm := hperm.map (fun i => resolve_artifact run (artifacts.getD i ""))
      rw [hA] at hm
      exact hm
    have keyA : ∀ (i : Nat) (h : i < (artifacts.map (resolve_artifact run)).length),
        sortKey artifacts ((artifacts.map (resolve_artifact run)).get ⟨i, h⟩) = i := by
      intro i h
      have h' : i < artifacts.length := by simpa using h
      rw [List.get_map]
      unfold sortKey
      rw [resolve_artifact_artifact]
      exact lastIdx_nodup_get artifacts hnd i h'
    have hsortedA : (artifacts.map (resolve_artifact run)).Sorted
        (fun x y => sortKey artifacts x ≤ sortKey artifacts y) := by
      rw [List.Sorted, List.pairwise_iff_get]
      intro i j hij
      show sortKey artifacts _ ≤ sortKey artifacts _
      rw [keyA i.1 i.2, keyA j.1 j.2]
      exact Nat.le_of_lt hij
    have hndA : ((artifacts.map (resolve_artifact run)).map
        (sortKey artifacts)).Nodup := by
      have hr : (artifacts.map (resolve_artifact run)).map (sortKey artifacts)
          = List.range artifacts.length := by
        apply List.ext_get
        · simp
        · intro i h1 h2
          rw [List.get_map, keyA, List.get_range]
      rw [hr]
      exact List.nodup_range _
    have hS : (List.insertionSort
        (fun x y => sortKey artifacts x ≤ sortKey artifacts y)
        (completion.map (fun i => resolve_artifact run (artifacts.getD i "")))).Sorted
        (fun x y => sortKey artifacts x ≤ sortKey artifacts y) :=
      List.sorted_insertionSort _ _
    have hpermAS : (artifacts.map (resolve_artifact run)).Perm
        (List.insertionSort (fun x y => sortKey artifacts x ≤ sortKey artifacts y)
          (completion.map (fun i => resolve_artifact run (artifacts.getD i "")))) :=
      ((List.perm_insertionSort _ _).trans hpermLA).symm
    exact (eq_of_perm_of_sorted_nodup_keys (sortKey artifacts)
      (artifacts.map (resolve_artifact run)) _ hpermAS hndA hsortedA hS).symm

/-- Witness for the amended C2 theorem: a duplicate-free two-element input
resolved in reversed completion order still comes back input-aligned. -/
theorem c2_amended_witness :
    resolve_parallel runC2w ["g:a", "h:b"] [1, 0] =
      ["g:a", "h:b"].map (resolve_artifact runC2w) :=
  (c2_resolve_parallel_order_amended runC2w ["g:a", "h:b"] [1, 0]
    (by decide)).2 (by decide)

/-! ### Invariants of the dedup loop -/

theorem guruLoop_spec {α : Type} (r : α → String) :
    ∀ (l : List α) (seen : List String),
      ((guruLoop r l seen).1.Sublist l) ∧
      ((guruLoop r l seen).2.Sublist l) ∧
      (∀ x ∈ (guruLoop r l seen).1, r x ≠ "" ∧ r x ∉ seen) ∧
      (∀ x ∈ (guruLoop r l seen).2, r x ≠ "") ∧
      (((guruLoop r l seen).1 ++ (guruLoop r l seen).2).Perm
        (l.filter (fun x => r x ≠ ""))) ∧
      (((guruLoop r l seen).1.map r).Nodup) ∧
      (∀ x ∈ (guruLoop r l seen).2,
        r x ∈ (guruLoop r l seen).1.map r ∨ r x ∈ seen) ∧
      (∀ x ∈ (guruLoop r l seen).1,
        l.find? (fun y => r y == r x) = some x) := by
  intro l
  induction l with
  | nil =>
    intro seen
    refine ⟨List.Sublist.refl _, List.Sublist.refl _, ?_, ?_, ?_, ?_, ?_, ?_⟩
      <;> simp [guruLoop]
  | cons a l ih =>
    intro seen
    by_cases h0 : r a = ""
    · have e : guruLoop r (a :: l) seen = guruLoop r l seen := by
        simp only [guruLoop, if_pos h0]
      obtain ⟨i1, i2, i3, i4, i5, i6, i7, i8⟩ := ih seen
      have hfilter : List.filter (fun x => decide (r x ≠ "")) (a :: l)
          = List.filter (fun x => decide (r x ≠ "")) l := by
        rw [List.filter_cons]
        simp [h0]
      refine ⟨?_, ?_, ?_, ?_, ?_, ?_, ?_, ?_⟩
      · rw [e]; exact i1.cons a
      · rw [e]; exact i2.cons a
      · rw [e]; exact i3
      · rw [e]; exact i4
      · rw [e, hfilter]; exact i5
      · rw [e]; exact i6
      · rw [e]; exact i7
      · rw [e]
        intro x hx
        have hxne : r x ≠ "" := (i3 x hx).1
        have hne : (r a == r x) = false := by
          refine beq_eq_false_iff_ne.mpr ?_
          rw [h0]
          exact fun hc => hxne hc.symm
        have hstep : List.find? (fun y => r y == r x) (a :: l)
            = List.find? (fun y => r y == r x) l :=
          List.find?_cons_of_neg _ (by simp [hne])
        rw [hstep]
        exact i8 x hx
    · by_cases h1 : r a ∈ seen
      · have e : guruLoop r (a :: l) seen
            = ((guruLoop r l seen).1, a :: (guruLoop r l seen).2) := by
          simp only [guruLoop, if_neg h0, if_pos h1]
        obtain ⟨i1, i2, i3, i4, i5, i6, i7, i8⟩ := ih seen
        have hfilter : List.filter (fun x => decide (r x ≠ "")) (a :: l)
            = a :: List.filter (fun x => decide (r x ≠ "")) l := by
          rw [List.filter_cons]
          simp [h0]
        refine ⟨?_, ?_, ?_, ?_, ?_, ?_, ?_, ?_⟩
        · rw [e]; exact i1.cons a
        · rw [e]; exact i2.cons₂ a
        · rw [e]; exact i3
        · rw [e]
          intro x hx
          rcases List.mem_cons.mp hx with hdx | hxd
          · rw [hdx]; exact h0
          · exact i4 x hxd
        · rw [e, hfilter]
          exact List.perm_middle.trans (i5.cons a)
        · rw [e]; exact i6
        · rw [e]
          intro x hx
          rcases List.mem_cons.mp hx with hdx | hxd
          · right; rw [hdx]; exact h1
          · exact i7 x hxd
        · rw [e]
          intro x hx
          have hax : (r a == r x) = false := by
            refine beq_eq_false_iff_ne.mpr ?_
            intro hc
            exact (i3 x hx).2 (hc ▸ h1)
          have hstep : List.find? (fun y => r y == r x) (a :: l)
              = List.find? (fun y => r y == r x) l :=
            List.find?_cons_of_neg _ (by simp [hax])
          rw [hstep]
          exact i8 x hx
      · have e : guruLoop r (a :: l) seen
            = (a :: (guruLoop r l (r a :: seen)).1,
                (guruLoop r l (r a :: seen)).2) := by
          simp only [guruLoop, if_neg h0, if_neg h1]
        obtain ⟨i1, i2, i3, i4, i5, i6, i7, i8⟩ := ih (r a :: seen)
        have hfilter : List.filter (fun x => decide (r x ≠ "")) (a :: l)
            = a :: List.filter (fun x => decide (r x ≠ "")) l := by
          rw [List.filter_cons]
          simp [h0]
        refine ⟨?_, ?_, ?_, ?_, ?_, ?_, ?_, ?_⟩
        · rw [e]; exact i1.cons₂ a
        · rw [e]; exact i2.cons a
        · rw [e]
          intro x hx
          rcases List.mem_cons.mp hx with hqx | hxq
          · rw [hqx]; exact ⟨h0, h1⟩
          · have h3 := i3 x hxq
            exact ⟨h3.1, fun hm => h3.2 (List.mem_cons_of_mem _ hm)⟩
        · rw [e]; exact i4
        · rw [e, hfilter]
          show (a :: ((guruLoop r l (r a :: seen)).1
            ++ (guruLoop r l (r a :: seen)).2)).Perm _
          exact i5.cons a
        · rw [e]
          refine List.nodup_cons.mpr ⟨?_, i6⟩
          intro hmem
          obtain ⟨x, hxq, hrx⟩ := List.mem_map.mp hmem
          exact (i3 x hxq).2 (hrx ▸ List.mem_cons_self _ _)
        · rw [e]
          intro x hx
          rcases i7 x hx with hq | hs
          · left; exact List.mem_cons_of_mem _ hq
          · rcases List.mem_cons.mp hs with heq | hseen
            · left; rw [heq]; exact List.mem_cons_self _ _
            · right; exact hseen
        · rw [e]
          intro x hx
          rcases List.mem_cons.mp hx with hqx | hxq
          · rw [hqx]
            exact List.find?_cons_of_pos _ (by simp)
          · have hax : (r a == r x) = false := by
              refine beq_eq_false_iff_ne.mpr ?_
              intro hc
              exact (i3 x hxq).2 (hc ▸ List.mem_cons_self _ _)
            have hstep : List.find? (fun y => r y == r x) (a :: l)
                = List.find? (fun y => r y == r x) l :=
              List.find?_cons_of_neg _ (by simp [hax])
            rw [hstep]
            exact i8 x hxq

/-- C10: `get_unique_repositories` partitions exactly the artifacts with a
non-empty repository URL into the (first-seen unique, duplicate) lists.  Both
output lists preserve input order (they are sublists of the input); every
member of either list has a non-empty URL (so empty/missing-URL artifacts
appear in neither, and together the two lists are a permutation of the
non-empty-URL artifacts); the unique list has pairwise distinct URLs and
keeps, per URL, the first input entry bearing it; and every duplicate's URL
is carried by some unique entry. -/
theorem c10_unique_repositories_partition {α : Type} (r : α → String)
    (l : List α) :
    ((get_unique_repositories r l).1.Sublist l) ∧
    ((get_unique_repositories r l).2.Sublist l) ∧
    (∀ x ∈ (get_unique_repositories r l).1, r x ≠ "") ∧
    (∀ x ∈ (get_unique_repositories r l).2, r x ≠ "") ∧
    (((get_unique_repositories r l).1 ++ (get_unique_repositories r l).2).Perm
      (l.filter (fun x => r x ≠ ""))) ∧
    (((get_unique_repositories r l).1.map r).Nodup) ∧
    (∀ x ∈ (get_unique_repositories r l).2,
      r x ∈ (get_unique_repositories r l).1.map r) ∧
    (∀ x ∈ (get_unique_repositories r l).1,
      l.find? (fun y => r y == r x) = some x) := by
  obtain ⟨i1, i2, i3, i4, i5, i6, i7, i8⟩ := guruLoop_spec r l []
  refine ⟨i1, i2, fun x hx => (i3 x hx).1, i4, i5, i6, ?_, i8⟩
  intro x hx
  rcases i7 x hx with hq | hs
  · exact hq
  · exact absurd hs (List.not_mem_nil _)

/-- Witness for the C10 theorem on a concrete artifact list: the unique list
is an order-preserving sublist, and applying the first-seen clause to the
member `(4, "v")` of the unique list locates it as the first input entry with
URL `"v"`. -/
theorem c10_witness :
    ((get_unique_repositories (fun p : Nat × String => p.2)
      [(1, "u"), (2, ""), (3, "u"), (4, "v")]).1.Sublist
        [(1, "u"), (2, ""), (3, "u"), (4, "v")]) ∧
    [(1, "u"), (2, ""), (3, "u"), (4, "v")].find?
      (fun y : Nat × String => y.2 == "v") = some (4, "v") :=
  ⟨(c10_unique_repositories_partition (fun p : Nat × String => p.2)
      [(1, "u"), (2, ""), (3, "u"), (4, "v")]).1,
    (c10_unique_repositories_partition (fun p : Nat × String => p.2)
      [(1, "u"), (2, ""), (3, "u"), (4, "v")]).2.2.2.2.2.2.2 (4, "v")
      (by decide)⟩

end SaaW
